import Mathlib

/-!
Shallow embedding of `src/rate_limiter.rs` from andreabergia/rust-rate-limiter.

The rate limiter keeps, per request key (a client address string), a queue of
admission timestamps (front = oldest).  `try_add_request` reads the clock,
lazily evicts stale entries, and decides `Allow` or `Deny`.  Machine integers
are modelled exactly: Rust `i64` timestamps as `Int`, `usize` configuration
parameters as `Nat`; the configured window `limit * ticks` never overflows in
the model, matching the exact-arithmetic reading of the specification.

The clock mutex (`self.clock.lock()?`) is the single fallible operation; it is
modelled by an `Option Int` argument: `some now` is a successful lock returning
the current tick, `none` is a poisoned mutex, which the Rust code converts to
`RateLimiterError::ThreadingProblem` via the `From<PoisonError>` impl.
-/

namespace RustRateLimiter

/-- Rust `enum RequestProcessingResponse { Allow, Deny }`. -/
inductive RequestProcessingResponse
  | Allow
  | Deny
deriving DecidableEq, Repr

/-- Rust `enum RateLimiterError { ThreadingProblem }`. -/
inductive RateLimiterError
  | ThreadingProblem
deriving DecidableEq, Repr

/-- The two construction-time parameters of `RateLimiter` (`usize` in Rust). -/
structure Config where
  limit : Nat
  ticks : Nat
deriving DecidableEq, Repr

/-- `RequestKey` wraps an address string; equality is string equality. -/
abbrev RequestKey := String

/-- The `requests: HashMap<RequestKey, VecDeque<RequestInfo>>` ledger, as a
map from key to the stored timestamp queue (front of the deque = list head). -/
abbrev Requests := RequestKey → Option (List Int)

/-- `HashMap::new()`: the fresh, empty ledger. -/
def emptyRequests : Requests := fun _ => none

/-- `self.requests.insert(address, requests)`: replace the entry for a key. -/
def insertRequests (s : Requests) (address : RequestKey) (q : List Int) : Requests :=
  fun k => if k = address then some q else s k

/-- The eviction window `(self.limit * self.ticks) as i64`. -/
def window (cfg : Config) : Int := ((cfg.limit * cfg.ticks : Nat) : Int)

/-- Rust `fn can_be_discarded(&self, front: Option<&RequestInfo>, now: i64) -> bool`:
`front.timestamp + (limit * ticks) as i64 <= now`, and `false` on an empty queue. -/
def can_be_discarded (cfg : Config) (front : Option Int) (now : Int) : Bool :=
  match front with
  | some req => decide (req + window cfg ≤ now)
  | none => false

/-- The `while can_be_discarded(requests.front(), now) { requests.pop_front();
updated = true; }` loop of `check_if_we_have_free_slot`: returns the remaining
queue together with the `updated` flag. -/
def evictLoop (cfg : Config) (now : Int) : List Int → List Int × Bool
  | [] => ([], false)
  | t :: rest =>
    if can_be_discarded cfg (some t) now then ((evictLoop cfg now rest).1, true)
    else (t :: rest, false)

/-- The remaining queue after the eviction loop. -/
def evict (cfg : Config) (now : Int) (q : List Int) : List Int :=
  (evictLoop cfg now q).1

/-- Rust `fn check_if_we_have_free_slot`: evict the stale prefix, then admit if
a slot is free; on `Deny` the evicted queue is written back only when the loop
actually removed something (`if updated`). -/
def check_if_we_have_free_slot (cfg : Config) (s : Requests) (address : RequestKey)
    (requests : List Int) (now : Int) : RequestProcessingResponse × Requests :=
  let er := evictLoop cfg now requests
  if er.1.length < cfg.limit then
    (.Allow, insertRequests s address (er.1 ++ [now]))
  else
    if er.2 then (.Deny, insertRequests s address er.1)
    else (.Deny, s)

/-- Rust `fn add_to_existing_requests`: read the clock (fallible), then either
append directly when below the limit, or fall through to the eviction path. -/
def add_to_existing_requests (cfg : Config) (s : Requests) (address : RequestKey)
    (requests : List Int) (clock : Option Int) :
    Except RateLimiterError RequestProcessingResponse × Requests :=
  match clock with
  | none => (.error .ThreadingProblem, s)
  | some now =>
    if requests.length < cfg.limit then
      (.ok .Allow, insertRequests s address (requests ++ [now]))
    else
      let r := check_if_we_have_free_slot cfg s address requests now
      (.ok r.1, r.2)

/-- Rust `fn add_request_for_new_source`: read the clock (fallible), store a
one-element queue for the key, return `Allow` unconditionally. -/
def add_request_for_new_source (cfg : Config) (s : Requests) (address : RequestKey)
    (clock : Option Int) :
    Except RateLimiterError RequestProcessingResponse × Requests :=
  match clock with
  | none => (.error .ThreadingProblem, s)
  | some now => (.ok .Allow, insertRequests s address [now])

/-- Rust `pub fn try_add_request(&mut self, address: RequestKey)`: dispatch on
whether the key already has an entry in the ledger.  The returned pair is the
`Result` value together with the ledger after the call (`&mut self`). -/
def try_add_request (cfg : Config) (s : Requests) (address : RequestKey)
    (clock : Option Int) :
    Except RateLimiterError RequestProcessingResponse × Requests :=
  match s address with
  | some requests => add_to_existing_requests cfg s address requests clock
  | none => add_request_for_new_source cfg s address clock

/-- `try_add_request` under a successfully acquired clock lock reading `now`. -/
def tryAdd (cfg : Config) (s : Requests) (address : RequestKey) (now : Int) :
    Except RateLimiterError RequestProcessingResponse × Requests :=
  try_add_request cfg s address (some now)

/-- Run a sequence of `try_add_request` calls; each trace element is a key
paired with the clock value observed by that call. -/
def runTrace (cfg : Config) (s : Requests) : List (RequestKey × Int) → Requests
  | [] => s
  | e :: rest => runTrace cfg (tryAdd cfg s e.1 e.2).2 rest

/-- The sequence of decisions along a trace of `try_add_request` calls. -/
def traceDecisions (cfg : Config) (s : Requests) :
    List (RequestKey × Int) → List (Except RateLimiterError RequestProcessingResponse)
  | [] => []
  | e :: rest => (tryAdd cfg s e.1 e.2).1 :: traceDecisions cfg (tryAdd cfg s e.1 e.2).2 rest

/-- A ledger state reachable from a fresh `RateLimiter` by some call sequence. -/
def Reachable (cfg : Config) (s : Requests) : Prop :=
  ∃ tr, s = runTrace cfg emptyRequests tr

/-- Modelled from the spec: the reference decision algorithm of section 4.2.
Take the key's queue (absent means empty), evict the prefix of entries with
`timestamp + limit*ticks <= now`, return `Allow` exactly when the post-eviction
length is `< limit`. -/
def specDecision (cfg : Config) (s : Requests) (address : RequestKey) (now : Int) :
    RequestProcessingResponse :=
  let q := ((s address).getD []).dropWhile fun t => decide (t + window cfg ≤ now)
  if q.length < cfg.limit then .Allow else .Deny

/-- Modelled from the spec: the section 4.4 implementation choice of never
persisting the eviction result on a `Deny` outcome, otherwise identical to
`check_if_we_have_free_slot`. -/
def check_free_slot_nopersist (cfg : Config) (s : Requests) (address : RequestKey)
    (requests : List Int) (now : Int) : RequestProcessingResponse × Requests :=
  let er := evictLoop cfg now requests
  if er.1.length < cfg.limit then
    (.Allow, insertRequests s address (er.1 ++ [now]))
  else (.Deny, s)

/-- `try_add_request` built on the never-persist-on-Deny variant. -/
def tryAddNoPersist (cfg : Config) (s : Requests) (address : RequestKey) (now : Int) :
    Except RateLimiterError RequestProcessingResponse × Requests :=
  match s address with
  | some requests =>
    if requests.length < cfg.limit then
      (.ok .Allow, insertRequests s address (requests ++ [now]))
    else
      let r := check_free_slot_nopersist cfg s address requests now
      (.ok r.1, r.2)
  | none => (.ok .Allow, insertRequests s address [now])

/-- Decisions along a trace for the never-persist-on-Deny variant. -/
def traceDecisionsNoPersist (cfg : Config) (s : Requests) :
    List (RequestKey × Int) → List (Except RateLimiterError RequestProcessingResponse)
  | [] => []
  | e :: rest =>
    (tryAddNoPersist cfg s e.1 e.2).1 ::
      traceDecisionsNoPersist cfg (tryAddNoPersist cfg s e.1 e.2).2 rest

/-- Simulation relation between a ledger of the real code and a ledger of the
never-persist-on-Deny variant at time `τ`: each key either has identical
entries, or holds two queues both at or above the limit whose evictions agree
at every clock value `≥ τ`. -/
def RelQ (cfg : Config) (τ : Int) (s1 s2 : Requests) : Prop :=
  ∀ k, s1 k = s2 k ∨
    ∃ q1 q2, s1 k = some q1 ∧ s2 k = some q2 ∧
      cfg.limit ≤ q1.length ∧ cfg.limit ≤ q2.length ∧
      ∀ t, τ ≤ t → evict cfg t q1 = evict cfg t q2

/-! ### Basic lemmas about the eviction loop and the step function -/

theorem evictLoop_fst_eq (cfg : Config) (now : Int) :
    ∀ q : List Int, (evictLoop cfg now q).1 =
      q.dropWhile fun t => decide (t + window cfg ≤ now)
  | [] => rfl
  | t :: rest => by
    by_cases h : (t + window cfg ≤ now)
    · simp [evictLoop, can_be_discarded, h, List.dropWhile, evictLoop_fst_eq cfg now rest]
    · simp [evictLoop, can_be_discarded, h, List.dropWhile]

theorem evict_sublist (cfg : Config) (now : Int) (q : List Int) :
    (evict cfg now q).Sublist q := by
  rw [evict, evictLoop_fst_eq]
  exact List.dropWhile_sublist _

theorem evict_length_le (cfg : Config) (now : Int) (q : List Int) :
    (evict cfg now q).length ≤ q.length :=
  (evict_sublist cfg now q).length_le

theorem dropWhile_dropWhile_of_imp {α : Type} (p q : α → Bool)
    (h : ∀ x, p x = true → q x = true) :
    ∀ l : List α, (l.dropWhile p).dropWhile q = l.dropWhile q
  | [] => rfl
  | x :: rest => by
    by_cases hp : p x
    · have hq := h x hp
      simp [List.dropWhile, hp, hq, dropWhile_dropWhile_of_imp p q h rest]
    · simp [List.dropWhile, hp]

theorem evict_evict (cfg : Config) (now now2 : Int) (h : now ≤ now2) (q : List Int) :
    evict cfg now2 (evict cfg now q) = evict cfg now2 q := by
  rw [evict, evict, evict, evictLoop_fst_eq, evictLoop_fst_eq, evictLoop_fst_eq]
  refine dropWhile_dropWhile_of_imp _ _ (fun t ht => ?_) q
  simp only [decide_eq_true_eq] at ht ⊢
  omega

theorem tryAdd_absent (cfg : Config) (s : Requests) (a : RequestKey) (now : Int)
    (h : s a = none) :
    tryAdd cfg s a now = (.ok .Allow, insertRequests s a [now]) := by
  simp [tryAdd, try_add_request, add_request_for_new_source, h]

theorem tryAdd_below_limit (cfg : Config) (s : Requests) (a : RequestKey) (now : Int)
    (q : List Int) (h : s a = some q) (hlt : q.length < cfg.limit) :
    tryAdd cfg s a now = (.ok .Allow, insertRequests s a (q ++ [now])) := by
  simp [tryAdd, try_add_request, add_to_existing_requests, h, hlt]

theorem tryAdd_at_limit (cfg : Config) (s : Requests) (a : RequestKey) (now : Int)
    (q : List Int) (h : s a = some q) (hge : ¬ q.length < cfg.limit) :
    tryAdd cfg s a now =
      (.ok (check_if_we_have_free_slot cfg s a q now).1,
        (check_if_we_have_free_slot cfg s a q now).2) := by
  simp [tryAdd, try_add_request, add_to_existing_requests, h, hge]

theorem check_slot_allow (cfg : Config) (s : Requests) (a : RequestKey)
    (q : List Int) (now : Int) (h : (evict cfg now q).length < cfg.limit) :
    check_if_we_have_free_slot cfg s a q now =
      (.Allow, insertRequests s a (evict cfg now q ++ [now])) := by
  simp [check_if_we_have_free_slot, evict] at h ⊢
  simp [h]

theorem check_slot_deny (cfg : Config) (s : Requests) (a : RequestKey)
    (q : List Int) (now : Int) (h : ¬ (evict cfg now q).length < cfg.limit) :
    (check_if_we_have_free_slot cfg s a q now).1 = .Deny ∧
    ((check_if_we_have_free_slot cfg s a q now).2 =
        insertRequests s a (evict cfg now q) ∨
      (check_if_we_have_free_slot cfg s a q now).2 = s) := by
  have h2 : ¬ (evictLoop cfg now q).1.length < cfg.limit := h
  by_cases hu : (evictLoop cfg now q).2 <;>
    simp [check_if_we_have_free_slot, evict, h2, hu]

/-! ### Claims -/

/-- Claim C1, counterexample: with `limit = 0`, a call for a key not yet
present in the ledger (here the very first call on a fresh, reachable ledger)
returns `Allow`, not `Deny` — `add_request_for_new_source` never consults the
limit.  This refutes the claim that every call returns `Deny`. -/
theorem claim1_counterexample :
    Reachable ⟨0, 1⟩ emptyRequests ∧
    (tryAdd ⟨0, 1⟩ emptyRequests "1.1.1.1" 7).1 = .ok .Allow ∧
    ¬ (tryAdd ⟨0, 1⟩ emptyRequests "1.1.1.1" 7).1 = .ok .Deny :=
  ⟨⟨[], rfl⟩, rfl, fun h => RequestProcessingResponse.noConfusion (Except.ok.inj h)⟩

/-- Claim C1 (amended): with `limit = 0`, every `try_add_request` call for a
key already present in the ledger returns `Deny` at every clock value; a call
for a key absent from the ledger returns `Allow` (and is the only way a key
becomes present). -/
theorem claim1_zero_limit (cfg : Config) (s : Requests) (a : RequestKey)
    (now : Int) (h0 : cfg.limit = 0) :
    (s a ≠ none → (tryAdd cfg s a now).1 = .ok .Deny) ∧
    (s a = none → (tryAdd cfg s a now).1 = .ok .Allow) := by
  constructor
  · intro hne
    obtain ⟨q, hq⟩ := Option.ne_none_iff_exists.mp hne
    have hge : ¬ q.length < cfg.limit := by omega
    have hd := check_slot_deny cfg s a q now (by omega)
    rw [tryAdd_at_limit cfg s a now q hq.symm hge, hd.1]
  · intro hnone
    rw [tryAdd_absent cfg s a now hnone]

/-- Claim C1 witness: concrete instantiations of both parts of the amended
zero-limit theorem. -/
theorem claim1_zero_limit_witness :
    ((insertRequests emptyRequests "1.1.1.1" [3]) "1.1.1.1" ≠ none →
      (tryAdd ⟨0, 5⟩ (insertRequests emptyRequests "1.1.1.1" [3]) "1.1.1.1" 9).1 =
        .ok .Deny) ∧
    ((insertRequests emptyRequests "1.1.1.1" [3]) "1.1.1.1" = none →
      (tryAdd ⟨0, 5⟩ (insertRequests emptyRequests "1.1.1.1" [3]) "1.1.1.1" 9).1 =
        .ok .Allow) :=
  claim1_zero_limit ⟨0, 5⟩ (insertRequests emptyRequests "1.1.1.1" [3]) "1.1.1.1" 9 rfl

/-- Claim C3: an entry with timestamp `t` is evictable at clock value `now`
iff `t + limit*ticks ≤ now` (tick-inclusive, exact integer arithmetic), and
the eviction loop removes exactly the maximal evictable prefix of the queue,
stopping at the first non-evictable front entry. -/
theorem claim3_eviction_window (cfg : Config) (now t : Int) (q : List Int) :
    (can_be_discarded cfg (some t) now = true ↔
      t + ((cfg.limit * cfg.ticks : Nat) : Int) ≤ now) ∧
    ∃ p r, q = p ++ r ∧ (evictLoop cfg now q).1 = r ∧
      (∀ u ∈ p, can_be_discarded cfg (some u) now = true) ∧
      (∀ u ∈ r.head?, can_be_discarded cfg (some u) now = false) := by
  constructor
  · simp [can_be_discarded, window]
  · refine ⟨q.takeWhile (fun u => decide (u + window cfg ≤ now)),
      q.dropWhile (fun u => decide (u + window cfg ≤ now)),
      (List.takeWhile_append_dropWhile _ _).symm, evictLoop_fst_eq cfg now q, ?_, ?_⟩
    · intro u hu
      simpa [can_be_discarded] using List.mem_takeWhile_imp hu
    · intro u hu
      have := List.head?_dropWhile_not (fun u => decide (u + window cfg ≤ now)) q
      rw [Option.mem_def] at hu
      rw [hu] at this
      simpa [can_be_discarded] using this

/-- Claim C5: the literal scenarios of spec section 8 — with `limit=2`,
`ticks=1`, one key, requests at ticks 1,1,1,2,3,4,4,5 give
Allow,Allow,Deny,Deny,Allow,Allow,Deny,Allow; with `limit=1`, `ticks=100`,
requests at ticks 1,100,101 give Allow,Deny,Allow. -/
theorem claim5_literal_scenarios :
    traceDecisions ⟨2, 1⟩ emptyRequests
        [("1.1.1.1", 1), ("1.1.1.1", 1), ("1.1.1.1", 1), ("1.1.1.1", 2),
         ("1.1.1.1", 3), ("1.1.1.1", 4), ("1.1.1.1", 4), ("1.1.1.1", 5)] =
      [.ok .Allow, .ok .Allow, .ok .Deny, .ok .Deny,
       .ok .Allow, .ok .Allow, .ok .Deny, .ok .Allow] ∧
    traceDecisions ⟨1, 100⟩ emptyRequests
        [("1.1.1.1", 1), ("1.1.1.1", 100), ("1.1.1.1", 101)] =
      [.ok .Allow, .ok .Deny, .ok .Allow] :=
  ⟨rfl, rfl⟩

/-- Claim C6: `try_add_request` can fail only with `ThreadingProblem` (the
poisoned clock mutex), and whenever it returns an error the requests ledger is
left exactly as it was before the call. -/
theorem claim6_error_atomicity (cfg : Config) (s : Requests) (a : RequestKey)
    (clock : Option Int) (e : RateLimiterError)
    (h : (try_add_request cfg s a clock).1 = .error e) :
    e = .ThreadingProblem ∧ (try_add_request cfg s a clock).2 = s := by
  refine ⟨by cases e; rfl, ?_⟩
  cases clock with
  | none =>
    cases hsa : s a <;>
      simp [try_add_request, add_to_existing_requests, add_request_for_new_source, hsa]
  | some now =>
    exfalso
    cases hsa : s a with
    | none =>
      rw [try_add_request, hsa] at h
      simp [add_request_for_new_source] at h
    | some q =>
      rw [try_add_request, hsa] at h
      by_cases hlt : q.length < cfg.limit
      · simp [add_to_existing_requests, hlt] at h
      · simp [add_to_existing_requests, hlt] at h

/-- Claim C6 witness: a poisoned clock mutex on a fresh ledger yields the
`ThreadingProblem` error and leaves the ledger untouched. -/
theorem claim6_error_atomicity_witness :
    RateLimiterError.ThreadingProblem = .ThreadingProblem ∧
    (try_add_request ⟨2, 1⟩ emptyRequests "1.1.1.1" none).2 = emptyRequests :=
  claim6_error_atomicity ⟨2, 1⟩ emptyRequests "1.1.1.1" none .ThreadingProblem rfl

/-- Claim C9: when the requesting key's stored queue is strictly below the
limit, `try_add_request` returns `Allow` and the new stored queue is exactly
the old queue with `now` appended — nothing is evicted, so entries older than
the window remain stored. -/
theorem claim9_lazy_eviction (cfg : Config) (s : Requests) (a : RequestKey)
    (now : Int) (q : List Int) (hq : s a = some q) (hlt : q.length < cfg.limit) :
    (tryAdd cfg s a now).1 = .ok .Allow ∧
    (tryAdd cfg s a now).2 a = some (q ++ [now]) := by
  rw [tryAdd_below_limit cfg s a now q hq hlt]
  simp [insertRequests]

/-- Claim C9 witness: with `limit=2, ticks=1`, a stored queue `[0]` whose
entry is long stale (`0 + 2 ≤ 100`) is kept and appended to at `now = 100`. -/
theorem claim9_lazy_eviction_witness :
    (tryAdd ⟨2, 1⟩ (insertRequests emptyRequests "1.1.1.1" [0]) "1.1.1.1" 100).1 =
      .ok .Allow ∧
    (tryAdd ⟨2, 1⟩ (insertRequests emptyRequests "1.1.1.1" [0]) "1.1.1.1" 100).2
        "1.1.1.1" = some ([0] ++ [100]) :=
  claim9_lazy_eviction ⟨2, 1⟩ (insertRequests emptyRequests "1.1.1.1" [0])
    "1.1.1.1" 100 [0] rfl (by decide)

theorem insertRequests_ne (s : Requests) (a b : RequestKey) (q : List Int)
    (h : b ≠ a) : insertRequests s a q b = s b := by
  simp [insertRequests, h]

theorem check_slot_frame (cfg : Config) (s : Requests) (a : RequestKey)
    (q : List Int) (now : Int) (b : RequestKey) (h : b ≠ a) :
    (check_if_we_have_free_slot cfg s a q now).2 b = s b := by
  rw [check_if_we_have_free_slot]
  by_cases h1 : (evictLoop cfg now q).1.length < cfg.limit <;>
    by_cases h2 : (evictLoop cfg now q).2 <;>
      simp [h1, h2, insertRequests_ne _ _ _ _ h]

theorem check_slot_fst (cfg : Config) (s : Requests) (a : RequestKey)
    (q : List Int) (now : Int) :
    (check_if_we_have_free_slot cfg s a q now).1 =
      if (evict cfg now q).length < cfg.limit then .Allow else .Deny := by
  rw [check_if_we_have_free_slot]
  by_cases h1 : (evictLoop cfg now q).1.length < cfg.limit <;>
    by_cases h2 : (evictLoop cfg now q).2 <;> simp [h1, h2, evict]

/-- Claim C8: per-key independence.  A `try_add_request` call for key `a`
leaves every other key's ledger entry unchanged, and its decision is the same
for any contents of the other keys' queues (it depends only on the entry for
`a`). -/
theorem claim8_per_key_independence (cfg : Config) (s s2 : Requests)
    (a b : RequestKey) (now : Int) (hb : b ≠ a) (hs2 : s2 a = s a) :
    (tryAdd cfg s a now).2 b = s b ∧
    (tryAdd cfg s2 a now).1 = (tryAdd cfg s a now).1 := by
  constructor
  · cases hsa : s a with
    | none => rw [tryAdd_absent cfg s a now hsa]; exact insertRequests_ne _ _ _ _ hb
    | some q =>
      by_cases hlt : q.length < cfg.limit
      · rw [tryAdd_below_limit cfg s a now q hsa hlt]
        exact insertRequests_ne _ _ _ _ hb
      · rw [tryAdd_at_limit cfg s a now q hsa hlt]
        exact check_slot_frame cfg s a q now b hb
  · cases hsa : s a with
    | none =>
      rw [tryAdd_absent cfg s a now hsa, tryAdd_absent cfg s2 a now (hs2.trans hsa)]
    | some q =>
      by_cases hlt : q.length < cfg.limit
      · rw [tryAdd_below_limit cfg s a now q hsa hlt,
          tryAdd_below_limit cfg s2 a now q (hs2.trans hsa) hlt]
      · rw [tryAdd_at_limit cfg s a now q hsa hlt,
          tryAdd_at_limit cfg s2 a now q (hs2.trans hsa) hlt]
        simp [check_slot_fst]

/-- Claim C8 witness: key `2.2.2.2` is untouched by a call for `1.1.1.1`, and
the decision for `1.1.1.1` is the same whether `2.2.2.2` holds no queue or a
full one. -/
theorem claim8_per_key_independence_witness :
    (tryAdd ⟨2, 1⟩ (insertRequests emptyRequests "1.1.1.1" [5]) "1.1.1.1" 6).2
        "2.2.2.2" = (insertRequests emptyRequests "1.1.1.1" [5]) "2.2.2.2" ∧
    (tryAdd ⟨2, 1⟩
        (insertRequests (insertRequests emptyRequests "2.2.2.2" [1, 2, 3])
          "1.1.1.1" [5]) "1.1.1.1" 6).1 =
      (tryAdd ⟨2, 1⟩ (insertRequests emptyRequests "1.1.1.1" [5]) "1.1.1.1" 6).1 :=
  claim8_per_key_independence ⟨2, 1⟩ (insertRequests emptyRequests "1.1.1.1" [5])
    (insertRequests (insertRequests emptyRequests "2.2.2.2" [1, 2, 3]) "1.1.1.1" [5])
    "1.1.1.1" "2.2.2.2" 6 (by decide) rfl

theorem step_length_bound (cfg : Config) (s : Requests) (a : RequestKey) (now : Int)
    (h : ∀ k q, s k = some q → q.length ≤ max cfg.limit 1) :
    ∀ k q, (tryAdd cfg s a now).2 k = some q → q.length ≤ max cfg.limit 1 := by
  intro k q hk
  cases hsa : s a with
  | none =>
    rw [tryAdd_absent cfg s a now hsa] at hk
    dsimp [insertRequests] at hk
    by_cases hka : k = a
    · rw [if_pos hka] at hk
      cases hk
      simp
    · rw [if_neg hka] at hk
      exact h k q hk
  | some q0 =>
    have hq0 := h a q0 hsa
    by_cases hlt : q0.length < cfg.limit
    · rw [tryAdd_below_limit cfg s a now q0 hsa hlt] at hk
      dsimp [insertRequests] at hk
      by_cases hka : k = a
      · rw [if_pos hka] at hk
        cases hk
        simp only [List.length_append, List.length_singleton]
        omega
      · rw [if_neg hka] at hk
        exact h k q hk
    · rw [tryAdd_at_limit cfg s a now q0 hsa hlt] at hk
      by_cases hev : (evict cfg now q0).length < cfg.limit
      · rw [check_slot_allow cfg s a q0 now hev] at hk
        dsimp [insertRequests] at hk
        by_cases hka : k = a
        · rw [if_pos hka] at hk
          cases hk
          simp only [List.length_append, List.length_singleton]
          omega
        · rw [if_neg hka] at hk
          exact h k q hk
      · rcases (check_slot_deny cfg s a q0 now hev).2 with h2 | h2
        · rw [h2] at hk
          dsimp [insertRequests] at hk
          by_cases hka : k = a
          · rw [if_pos hka] at hk
            cases hk
            have := evict_length_le cfg now q0
            omega
          · rw [if_neg hka] at hk
            exact h k q hk
        · rw [h2] at hk
          exact h k q hk

theorem runTrace_length_bound (cfg : Config) :
    ∀ (tr : List (RequestKey × Int)) (s : Requests),
      (∀ k q, s k = some q → q.length ≤ max cfg.limit 1) →
      ∀ k q, runTrace cfg s tr k = some q → q.length ≤ max cfg.limit 1
  | [], _, h => h
  | e :: rest, s, h =>
    runTrace_length_bound cfg rest _ (step_length_bound cfg s e.1 e.2 h)

/-- Claim C4, counterexample: with `limit = 0` the reachable state after one
call stores a queue of length 1, which exceeds the limit. -/
theorem claim4_counterexample :
    runTrace ⟨0, 1⟩ emptyRequests [("1.1.1.1", 3)] "1.1.1.1" = some [3] ∧
    ¬ (([3] : List Int).length ≤ (⟨0, 1⟩ : Config).limit) :=
  ⟨rfl, by decide⟩

/-- Claim C4 (amended): for `limit ≥ 1`, in every state reachable from a
fresh `RateLimiter` by any sequence of `try_add_request` calls, no key's
stored queue is longer than `limit`. -/
theorem claim4_capacity_invariant (cfg : Config) (hpos : 1 ≤ cfg.limit)
    (tr : List (RequestKey × Int)) (k : RequestKey) (q : List Int)
    (h : runTrace cfg emptyRequests tr k = some q) :
    q.length ≤ cfg.limit := by
  have hb := runTrace_length_bound cfg tr emptyRequests
    (by intro k q hk; simp [emptyRequests] at hk) k q h
  rwa [max_eq_left hpos] at hb

/-- Claim C4 witness: the two-calls-at-tick-1 trace with `limit = 2` stores a
queue of length 2, within the limit. -/
theorem claim4_capacity_invariant_witness :
    ([1, 1] : List Int).length ≤ (⟨2, 1⟩ : Config).limit :=
  claim4_capacity_invariant ⟨2, 1⟩ (by decide)
    [("1.1.1.1", 1), ("1.1.1.1", 1)] "1.1.1.1" [1, 1] rfl

/-- Claim C10: every reachable stored queue has length at most
`max limit 1`, and the first successful call for an absent key stores a queue
of length exactly 1 and returns `Allow`, for every value of `limit` including
`limit = 0`. -/
theorem claim10_degenerate_length_bound (cfg : Config) (s : Requests)
    (a : RequestKey) (now : Int) (tr : List (RequestKey × Int)) (k : RequestKey)
    (q : List Int) (hreach : runTrace cfg emptyRequests tr k = some q)
    (hnew : s a = none) :
    q.length ≤ max cfg.limit 1 ∧
    (tryAdd cfg s a now).1 = .ok .Allow ∧
    (tryAdd cfg s a now).2 a = some [now] := by
  refine ⟨runTrace_length_bound cfg tr emptyRequests
    (by intro k q hk; simp [emptyRequests] at hk) k q hreach, ?_, ?_⟩ <;>
    rw [tryAdd_absent cfg s a now hnew] <;> simp [insertRequests]

/-- Claim C10 witness: with `limit = 0`, after one call the reachable queue
`[1]` has length `1 ≤ max 0 1`, and a fresh key is allowed with a stored
queue of exactly one timestamp. -/
theorem claim10_degenerate_length_bound_witness :
    ([1] : List Int).length ≤ max (⟨0, 1⟩ : Config).limit 1 ∧
    (tryAdd ⟨0, 1⟩ emptyRequests "2.2.2.2" 5).1 = .ok .Allow ∧
    (tryAdd ⟨0, 1⟩ emptyRequests "2.2.2.2" 5).2 "2.2.2.2" = some [5] :=
  claim10_degenerate_length_bound ⟨0, 1⟩ emptyRequests "2.2.2.2" 5
    [("1.1.1.1", 1)] "1.1.1.1" [1] rfl rfl

theorem sorted_append_last (l : List Int) (x : Int)
    (h : List.Sorted (· ≤ ·) l) (hb : ∀ t ∈ l, t ≤ x) :
    List.Sorted (· ≤ ·) (l ++ [x]) := by
  simp only [List.Sorted, List.pairwise_append, List.pairwise_singleton,
    List.mem_singleton]
  exact ⟨h, trivial, fun u hu v hv => hv ▸ hb u hu⟩

theorem step_sorted (cfg : Config) (s : Requests) (a : RequestKey) (now τ : Int)
    (hτ : τ ≤ now)
    (h : ∀ k q, s k = some q → List.Sorted (· ≤ ·) q ∧ ∀ t ∈ q, t ≤ τ) :
    ∀ k q, (tryAdd cfg s a now).2 k = some q →
      List.Sorted (· ≤ ·) q ∧ ∀ t ∈ q, t ≤ now := by
  have hweak : ∀ k q, s k = some q → List.Sorted (· ≤ ·) q ∧ ∀ t ∈ q, t ≤ now :=
    fun k q hk => ⟨(h k q hk).1, fun t ht => le_trans ((h k q hk).2 t ht) hτ⟩
  have happend : ∀ q0 : List Int,
      (List.Sorted (· ≤ ·) q0 ∧ ∀ t ∈ q0, t ≤ now) →
      List.Sorted (· ≤ ·) (q0 ++ [now]) ∧ ∀ t ∈ q0 ++ [now], t ≤ now := by
    intro q0 hq0
    refine ⟨sorted_append_last q0 now hq0.1 hq0.2, fun t ht => ?_⟩
    rcases List.mem_append.mp ht with h1 | h1
    · exact hq0.2 t h1
    · simp at h1
      omega
  have hevict : ∀ q0 : List Int,
      (List.Sorted (· ≤ ·) q0 ∧ ∀ t ∈ q0, t ≤ now) →
      List.Sorted (· ≤ ·) (evict cfg now q0) ∧ ∀ t ∈ evict cfg now q0, t ≤ now := by
    intro q0 hq0
    exact ⟨List.Pairwise.sublist (evict_sublist cfg now q0) hq0.1,
      fun t ht => hq0.2 t ((evict_sublist cfg now q0).mem ht)⟩
  intro k q hk
  cases hsa : s a with
  | none =>
    rw [tryAdd_absent cfg s a now hsa] at hk
    dsimp [insertRequests] at hk
    by_cases hka : k = a
    · rw [if_pos hka] at hk
      cases hk
      simp
    · rw [if_neg hka] at hk
      exact hweak k q hk
  | some q0 =>
    have hq0 := hweak a q0 hsa
    by_cases hlt : q0.length < cfg.limit
    · rw [tryAdd_below_limit cfg s a now q0 hsa hlt] at hk
      dsimp [insertRequests] at hk
      by_cases hka : k = a
      · rw [if_pos hka] at hk
        cases hk
        exact happend q0 hq0
      · rw [if_neg hka] at hk
        exact hweak k q hk
    · rw [tryAdd_at_limit cfg s a now q0 hsa hlt] at hk
      by_cases hev : (evict cfg now q0).length < cfg.limit
      · rw [check_slot_allow cfg s a q0 now hev] at hk
        dsimp [insertRequests] at hk
        by_cases hka : k = a
        · rw [if_pos hka] at hk
          cases hk
          exact happend _ (hevict q0 hq0)
        · rw [if_neg hka] at hk
          exact hweak k q hk
      · rcases (check_slot_deny cfg s a q0 now hev).2 with h2 | h2
        · rw [h2] at hk
          dsimp [insertRequests] at hk
          by_cases hka : k = a
          · rw [if_pos hka] at hk
            cases hk
            exact hevict q0 hq0
          · rw [if_neg hka] at hk
            exact hweak k q hk
        · rw [h2] at hk
          exact hweak k q hk

theorem runTrace_sorted (cfg : Config) :
    ∀ (tr : List (RequestKey × Int)) (τ : Int) (s : Requests),
      List.Chain (· ≤ ·) τ (tr.map Prod.snd) →
      (∀ k q, s k = some q → List.Sorted (· ≤ ·) q ∧ ∀ t ∈ q, t ≤ τ) →
      ∀ k q, runTrace cfg s tr k = some q → List.Sorted (· ≤ ·) q
  | [], _, _, _, h, k, q, hk => (h k q hk).1
  | e :: rest, τ, s, hc, h, k, q, hk => by
    rw [List.map_cons, List.chain_cons] at hc
    exact runTrace_sorted cfg rest e.2 _ hc.2
      (step_sorted cfg s e.1 e.2 τ hc.1 h) k q hk

/-- Claim C7: under a monotone non-decreasing clock (each reading at least
the previous one, starting from some `τ`), every queue in every reachable
state is sorted non-decreasing from front to back; moreover a single
`try_add_request` call preserves sortedness of every stored queue whenever
the pre-state queues are sorted and bounded by the current reading. -/
theorem claim7_sort_invariant (cfg : Config) (τ : Int)
    (tr : List (RequestKey × Int))
    (hmono : List.Chain (· ≤ ·) τ (tr.map Prod.snd)) :
    (∀ k q, runTrace cfg emptyRequests tr k = some q →
      List.Sorted (· ≤ ·) q) ∧
    (∀ (s : Requests) (a : RequestKey) (now : Int),
      (∀ k q, s k = some q → List.Sorted (· ≤ ·) q ∧ ∀ t ∈ q, t ≤ now) →
      ∀ k q, (tryAdd cfg s a now).2 k = some q → List.Sorted (· ≤ ·) q) :=
  ⟨runTrace_sorted cfg tr τ emptyRequests hmono
      (by intro k q hk; simp [emptyRequests] at hk),
    fun s a now h k q hk => (step_sorted cfg s a now now le_rfl h k q hk).1⟩

/-- Claim C7 witness: on the monotone trace with readings 1 then 2, every
queue of the resulting state is sorted, and so is the queue `[1, 2]` the
state actually stores. -/
theorem claim7_sort_invariant_witness :
    ((∀ k q, runTrace ⟨2, 1⟩ emptyRequests
        [("1.1.1.1", 1), ("1.1.1.1", 2)] k = some q →
      List.Sorted (· ≤ ·) q) ∧
    (∀ (s : Requests) (a : RequestKey) (now : Int),
      (∀ k q, s k = some q → List.Sorted (· ≤ ·) q ∧ ∀ t ∈ q, t ≤ now) →
      ∀ k q, (tryAdd ⟨2, 1⟩ s a now).2 k = some q →
        List.Sorted (· ≤ ·) q)) ∧
    runTrace ⟨2, 1⟩ emptyRequests [("1.1.1.1", 1), ("1.1.1.1", 2)] "1.1.1.1" =
      some [1, 2] :=
  ⟨claim7_sort_invariant ⟨2, 1⟩ 0 [("1.1.1.1", 1), ("1.1.1.1", 2)]
      (.cons (by norm_num) (.cons (by norm_num) .nil)), rfl⟩

theorem tryAddNoPersist_absent (cfg : Config) (s : Requests) (a : RequestKey)
    (now : Int) (h : s a = none) :
    tryAddNoPersist cfg s a now = (.ok .Allow, insertRequests s a [now]) := by
  simp [tryAddNoPersist, h]

theorem tryAddNoPersist_below_limit (cfg : Config) (s : Requests) (a : RequestKey)
    (now : Int) (q : List Int) (h : s a = some q) (hlt : q.length < cfg.limit) :
    tryAddNoPersist cfg s a now = (.ok .Allow, insertRequests s a (q ++ [now])) := by
  simp [tryAddNoPersist, h, hlt]

theorem tryAddNoPersist_at_limit (cfg : Config) (s : Requests) (a : RequestKey)
    (now : Int) (q : List Int) (h : s a = some q) (hge : ¬ q.length < cfg.limit) :
    tryAddNoPersist cfg s a now =
      (.ok (check_free_slot_nopersist cfg s a q now).1,
        (check_free_slot_nopersist cfg s a q now).2) := by
  simp [tryAddNoPersist, h, hge]

theorem check_nopersist_allow (cfg : Config) (s : Requests) (a : RequestKey)
    (q : List Int) (now : Int) (h : (evict cfg now q).length < cfg.limit) :
    check_free_slot_nopersist cfg s a q now =
      (.Allow, insertRequests s a (evict cfg now q ++ [now])) := by
  have h2 : (evictLoop cfg now q).1.length < cfg.limit := h
  simp [check_free_slot_nopersist, h2, evict]

theorem check_nopersist_deny (cfg : Config) (s : Requests) (a : RequestKey)
    (q : List Int) (now : Int) (h : ¬ (evict cfg now q).length < cfg.limit) :
    check_free_slot_nopersist cfg s a q now = (.Deny, s) := by
  have h2 : ¬ (evictLoop cfg now q).1.length < cfg.limit := h
  simp [check_free_slot_nopersist, h2]

theorem relQ_mono (cfg : Config) (τ τ2 : Int) (s1 s2 : Requests)
    (hτ : τ ≤ τ2) (h : RelQ cfg τ s1 s2) : RelQ cfg τ2 s1 s2 := by
  intro k
  rcases h k with heq | ⟨q1, q2, h1, h2, hl1, hl2, he⟩
  · exact .inl heq
  · exact .inr ⟨q1, q2, h1, h2, hl1, hl2, fun t ht => he t (le_trans hτ ht)⟩

theorem relQ_refl (cfg : Config) (τ : Int) (s : Requests) : RelQ cfg τ s s :=
  fun _ => .inl rfl

theorem relQ_insert (cfg : Config) (τ now : Int) (s1 s2 : Requests)
    (hτ : τ ≤ now) (h : RelQ cfg τ s1 s2) (a : RequestKey) (u : List Int) :
    RelQ cfg now (insertRequests s1 a u) (insertRequests s2 a u) := by
  intro k
  by_cases hk : k = a
  · left
    simp [insertRequests, hk]
  · rcases relQ_mono cfg τ now s1 s2 hτ h k with heq | ⟨q1, q2, h1, h2, hl1, hl2, he⟩
    · left
      simp [insertRequests, hk, heq]
    · right
      exact ⟨q1, q2, by simp [insertRequests, hk, h1],
        by simp [insertRequests, hk, h2], hl1, hl2, he⟩

theorem relQ_insert_left (cfg : Config) (τ now : Int) (s1 s2 : Requests)
    (hτ : τ ≤ now) (h : RelQ cfg τ s1 s2) (a : RequestKey) (q1' q2 : List Int)
    (h2 : s2 a = some q2) (hl1 : cfg.limit ≤ q1'.length)
    (hl2 : cfg.limit ≤ q2.length)
    (he : ∀ t, now ≤ t → evict cfg t q1' = evict cfg t q2) :
    RelQ cfg now (insertRequests s1 a q1') s2 := by
  intro k
  by_cases hk : k = a
  · right
    exact ⟨q1', q2, by simp [insertRequests, hk], hk ▸ h2, hl1, hl2, he⟩
  · rcases relQ_mono cfg τ now s1 s2 hτ h k with heq | ⟨p1, p2, hp1, hp2, hpl1, hpl2, hpe⟩
    · left
      simp [insertRequests, hk, heq]
    · right
      exact ⟨p1, p2, by simp [insertRequests, hk, hp1], hp2, hpl1, hpl2, hpe⟩

theorem step_sim (cfg : Config) (τ now : Int) (s1 s2 : Requests) (a : RequestKey)
    (hτ : τ ≤ now) (h : RelQ cfg τ s1 s2) :
    (tryAdd cfg s1 a now).1 = (tryAddNoPersist cfg s2 a now).1 ∧
    RelQ cfg now (tryAdd cfg s1 a now).2 (tryAddNoPersist cfg s2 a now).2 := by
  rcases h a with heq | ⟨q1, q2, h1, h2, hl1, hl2, hevq⟩
  · cases hsa : s1 a with
    | none =>
      have hs2a : s2 a = none := heq ▸ hsa
      rw [tryAdd_absent cfg s1 a now hsa, tryAddNoPersist_absent cfg s2 a now hs2a]
      exact ⟨rfl, relQ_insert cfg τ now s1 s2 hτ h a [now]⟩
    | some q =>
      have hs2a : s2 a = some q := heq ▸ hsa
      by_cases hlt : q.length < cfg.limit
      · rw [tryAdd_below_limit cfg s1 a now q hsa hlt,
          tryAddNoPersist_below_limit cfg s2 a now q hs2a hlt]
        exact ⟨rfl, relQ_insert cfg τ now s1 s2 hτ h a (q ++ [now])⟩
      · rw [tryAdd_at_limit cfg s1 a now q hsa hlt,
          tryAddNoPersist_at_limit cfg s2 a now q hs2a hlt]
        by_cases hev : (evict cfg now q).length < cfg.limit
        · rw [check_slot_allow cfg s1 a q now hev, check_nopersist_allow cfg s2 a q now hev]
          exact ⟨rfl, relQ_insert cfg τ now s1 s2 hτ h a (evict cfg now q ++ [now])⟩
        · rw [check_nopersist_deny cfg s2 a q now hev]
          refine ⟨by rw [(check_slot_deny cfg s1 a q now hev).1], ?_⟩
          rcases (check_slot_deny cfg s1 a q now hev).2 with hc | hc
          · rw [hc]
            exact relQ_insert_left cfg τ now s1 s2 hτ h a (evict cfg now q) q hs2a
              (Nat.le_of_not_lt hev) (Nat.le_of_not_lt hlt)
              (fun t ht => evict_evict cfg now t ht q)
          · rw [hc]
            exact relQ_mono cfg τ now s1 s2 hτ h
  · have hlt1 : ¬ q1.length < cfg.limit := Nat.not_lt.mpr hl1
    have hlt2 : ¬ q2.length < cfg.limit := Nat.not_lt.mpr hl2
    rw [tryAdd_at_limit cfg s1 a now q1 h1 hlt1,
      tryAddNoPersist_at_limit cfg s2 a now q2 h2 hlt2]
    have heqe : evict cfg now q1 = evict cfg now q2 := hevq now hτ
    by_cases hev : (evict cfg now q1).length < cfg.limit
    · have hev2 : (evict cfg now q2).length < cfg.limit := heqe ▸ hev
      rw [check_slot_allow cfg s1 a q1 now hev,
        check_nopersist_allow cfg s2 a q2 now hev2, heqe]
      exact ⟨rfl, relQ_insert cfg τ now s1 s2 hτ h a (evict cfg now q2 ++ [now])⟩
    · have hev2 : ¬ (evict cfg now q2).length < cfg.limit := heqe ▸ hev
      rw [check_nopersist_deny cfg s2 a q2 now hev2]
      refine ⟨by rw [(check_slot_deny cfg s1 a q1 now hev).1], ?_⟩
      rcases (check_slot_deny cfg s1 a q1 now hev).2 with hc | hc
      · rw [hc]
        refine relQ_insert_left cfg τ now s1 s2 hτ h a (evict cfg now q1) q2 h2
          (Nat.le_of_not_lt hev) hl2 (fun t ht => ?_)
        rw [evict_evict cfg now t ht q1]
        exact hevq t (le_trans hτ ht)
      · rw [hc]
        exact relQ_mono cfg τ now s1 s2 hτ h

theorem trace_sim (cfg : Config) :
    ∀ (tr : List (RequestKey × Int)) (τ : Int) (s1 s2 : Requests),
      List.Chain (· ≤ ·) τ (tr.map Prod.snd) → RelQ cfg τ s1 s2 →
      traceDecisions cfg s1 tr = traceDecisionsNoPersist cfg s2 tr
  | [], _, _, _, _, _ => rfl
  | e :: rest, τ, s1, s2, hc, h => by
    rw [List.map_cons, List.chain_cons] at hc
    obtain ⟨hd, hrel⟩ := step_sim cfg τ e.2 s1 s2 e.1 hc.1 h
    simp only [traceDecisions, traceDecisionsNoPersist]
    rw [hd, trace_sim cfg rest e.2 _ _ hc.2 hrel]

theorem tryAdd_fst_eq_spec (cfg : Config) (hpos : 1 ≤ cfg.limit) (s : Requests)
    (a : RequestKey) (now : Int) :
    (tryAdd cfg s a now).1 = .ok (specDecision cfg s a now) := by
  cases hsa : s a with
  | none =>
    rw [tryAdd_absent cfg s a now hsa]
    have h0 : (0 : Nat) < cfg.limit := hpos
    simp [specDecision, hsa, h0]
  | some q =>
    by_cases hlt : q.length < cfg.limit
    · rw [tryAdd_below_limit cfg s a now q hsa hlt]
      have h2 : (q.dropWhile fun t => decide (t + window cfg ≤ now)).length <
          cfg.limit :=
        lt_of_le_of_lt (List.dropWhile_sublist _).length_le hlt
      simp [specDecision, hsa, h2]
    · rw [tryAdd_at_limit cfg s a now q hsa hlt, check_slot_fst cfg s a q now,
        evict, evictLoop_fst_eq]
      simp only [specDecision, hsa, Option.getD_some]

/-- Claim C2, counterexample: on the reachable fresh ledger with `limit = 0`,
the decision of `try_add_request` for an absent key is `Allow`, while the
reference algorithm of spec section 4.2 (empty queue, post-eviction length
`0 < 0` false) decides `Deny`. -/
theorem claim2_counterexample :
    Reachable ⟨0, 1⟩ emptyRequests ∧
    specDecision ⟨0, 1⟩ emptyRequests "1.1.1.1" 7 = .Deny ∧
    ¬ (tryAdd ⟨0, 1⟩ emptyRequests "1.1.1.1" 7).1 =
        .ok (specDecision ⟨0, 1⟩ emptyRequests "1.1.1.1" 7) :=
  ⟨⟨[], rfl⟩, rfl, fun h => RequestProcessingResponse.noConfusion (Except.ok.inj h)⟩

/-- Claim C2 (amended): for `limit ≥ 1`, on every ledger state the decision of
`try_add_request` equals the decision of the reference algorithm of spec
section 4.2; and for every limit, whether the eviction result is persisted
back on a `Deny` outcome never changes any later decision — along any
clock-monotone call sequence the code and the never-persist-on-Deny variant
produce identical decision sequences from any common start state. -/
theorem claim2_refinement (cfg : Config) (s : Requests) (a : RequestKey)
    (now τ : Int) (tr : List (RequestKey × Int))
    (hmono : List.Chain (· ≤ ·) τ (tr.map Prod.snd)) :
    (1 ≤ cfg.limit → (tryAdd cfg s a now).1 = .ok (specDecision cfg s a now)) ∧
    traceDecisions cfg s tr = traceDecisionsNoPersist cfg s tr :=
  ⟨fun hpos => tryAdd_fst_eq_spec cfg hpos s a now,
    trace_sim cfg tr τ s s hmono (relQ_refl cfg τ s)⟩

/-- Claim C2 witness: concrete instantiation — at `limit = 2` the code's
decision matches the reference algorithm, and along the monotone readings
1, 3 the persisting code and the never-persist variant decide identically. -/
theorem claim2_refinement_witness :
    ((1 : Nat) ≤ (⟨2, 1⟩ : Config).limit →
      (tryAdd ⟨2, 1⟩ emptyRequests "1.1.1.1" 5).1 =
        .ok (specDecision ⟨2, 1⟩ emptyRequests "1.1.1.1" 5)) ∧
    traceDecisions ⟨2, 1⟩ emptyRequests [("1.1.1.1", 1), ("1.1.1.1", 3)] =
      traceDecisionsNoPersist ⟨2, 1⟩ emptyRequests
        [("1.1.1.1", 1), ("1.1.1.1", 3)] :=
  claim2_refinement ⟨2, 1⟩ emptyRequests "1.1.1.1" 5 0
    [("1.1.1.1", 1), ("1.1.1.1", 3)]
    (.cons (by norm_num) (.cons (by norm_num) .nil))

end RustRateLimiter
